import Mathlib

/-!
Verification of the view-model engine of the `raoqu/calendar` widget
(`src/Calendar.tsx`): date arithmetic, view partitioning, event
normalization, visible-event projection, and the drag-gesture handlers.

Dates are modelled as integer timestamps counting milliseconds of local
time since 0000-01-01T00:00 in a proleptic Gregorian calendar without
daylight-saving transitions, so a local calendar day is exactly
`dayMs = 86400000` milliseconds.  The JavaScript `Date` accessors and
mutators used by the source (`getFullYear`/`getMonth`/`getDate`/`getDay`,
`setHours(0,0,0,0)`, `setDate`, `setMonth`, `setFullYear`) are embedded
through an explicit civil-date <-> day-number conversion with the
JavaScript rollover semantics (out-of-range month and day-of-month fields
roll over into neighbouring months and years).
-/

set_option maxHeartbeats 1600000

set_option maxRecDepth 16000

namespace Cal

/-- Milliseconds per local calendar day (`24 * 60 * 60 * 1000`), the constant
used by `diffDays` in `Calendar.tsx`. -/
def dayMs : Int := 86400000

/-- Gregorian leap-year rule, underlying the local-calendar behaviour of the
JavaScript `Date` objects the source manipulates. -/
def isLeap (y : Int) : Bool := (y % 4 == 0 && y % 100 != 0) || y % 400 == 0

/-- Number of days in 0-based month `m` of a year with leap flag `leap`. -/
def daysInMonth (leap : Bool) (m : Nat) : Nat :=
  match m with
  | 0 => 31
  | 1 => if leap then 29 else 28
  | 2 => 31
  | 3 => 30
  | 4 => 31
  | 5 => 30
  | 6 => 31
  | 7 => 31
  | 8 => 30
  | 9 => 31
  | 10 => 30
  | _ => 31

/-- Days from 01 January to the first day of 0-based month `m`. -/
def daysBeforeMonth (leap : Bool) (m : Nat) : Nat :=
  let l : Nat := if leap then 1 else 0
  match m with
  | 0 => 0
  | 1 => 31
  | 2 => 59 + l
  | 3 => 90 + l
  | 4 => 120 + l
  | 5 => 151 + l
  | 6 => 181 + l
  | 7 => 212 + l
  | 8 => 243 + l
  | 9 => 273 + l
  | 10 => 304 + l
  | _ => 334 + l

/-- Absolute day number (days since 0000-01-01) of 01 January of year `y`,
proleptic Gregorian. -/
def daysToYear (y : Int) : Int :=
  365 * y + (y + 3) / 4 - (y + 99) / 100 + (y + 399) / 400

/-- Year containing the absolute day number `z`: a closed-form candidate
followed by an off-by-one correction. -/
def yearOfDay (z : Int) : Int :=
  let y := (400 * z + 591) / 146097
  if z < daysToYear y then y - 1
  else if daysToYear (y + 1) ≤ z then y + 1
  else y

/-- Month (0-based) and day-of-month (1-based) of the day-of-year `doy`. -/
def monthAndDay (leap : Bool) (doy : Nat) : Nat × Nat :=
  let l : Nat := if leap then 1 else 0
  if doy < 31 then (0, doy + 1)
  else if doy < 59 + l then (1, doy - 31 + 1)
  else if doy < 90 + l then (2, doy - (59 + l) + 1)
  else if doy < 120 + l then (3, doy - (90 + l) + 1)
  else if doy < 151 + l then (4, doy - (120 + l) + 1)
  else if doy < 181 + l then (5, doy - (151 + l) + 1)
  else if doy < 212 + l then (6, doy - (181 + l) + 1)
  else if doy < 243 + l then (7, doy - (212 + l) + 1)
  else if doy < 273 + l then (8, doy - (243 + l) + 1)
  else if doy < 304 + l then (9, doy - (273 + l) + 1)
  else if doy < 334 + l then (10, doy - (304 + l) + 1)
  else (11, doy - (334 + l) + 1)

/-- Absolute day number of the civil date `(y, m, d)` with 0-based month `m`
and 1-based day `d`; exactly as in JavaScript `new Date(y, m, d)`, both `m`
and `d` may lie outside their nominal ranges and roll over. -/
def daysFromCivil (y m d : Int) : Int :=
  let y1 := y + m / 12
  let m1 := (m % 12).toNat
  daysToYear y1 + (daysBeforeMonth (isLeap y1) m1 : Int) + d - 1

/-- Civil date `(year, month, day)` (0-based month, 1-based day) of the
absolute day number `z`. -/
def civilFromDays (z : Int) : Int × Nat × Nat :=
  let y := yearOfDay z
  let doy := (z - daysToYear y).toNat
  let md := monthAndDay (isLeap y) doy
  (y, md.1, md.2)

/-- Day number of the timestamp `t` (milliseconds of local time). -/
def toDay (t : Int) : Int := t / dayMs

/-- Milliseconds elapsed since the local midnight preceding `t`. -/
def timeOfDay (t : Int) : Int := t % dayMs

/-- Embedding of `startOfDay` (`x.setHours(0, 0, 0, 0)`): truncate the
timestamp to local midnight. -/
def startOfDay (t : Int) : Int := t - t % dayMs

/-- JavaScript `Date.prototype.getFullYear` on the local timeline. -/
def getFullYear (t : Int) : Int := (civilFromDays (toDay t)).1

/-- JavaScript `Date.prototype.getMonth` (0-based month). -/
def getMonth (t : Int) : Nat := (civilFromDays (toDay t)).2.1

/-- JavaScript `Date.prototype.getDate` (1-based day of month). -/
def getDate (t : Int) : Nat := (civilFromDays (toDay t)).2.2

/-- JavaScript `Date.prototype.getDay`: weekday with 0 = Sunday.  Day number 0
(0000-01-01) was a Saturday, and 6 ≡ Saturday under this numbering. -/
def getDay (t : Int) : Int := (toDay t + 6) % 7

/-- JavaScript `Date.prototype.getHours` in the DST-free local model. -/
def getHours (t : Int) : Int := (t % dayMs) / 3600000

/-- JavaScript `Date.prototype.getMinutes`. -/
def getMinutes (t : Int) : Int := (t % 3600000) / 60000

/-- JavaScript `Date.prototype.getSeconds`. -/
def getSeconds (t : Int) : Int := (t % 60000) / 1000

/-- JavaScript `Date.prototype.getMilliseconds`. -/
def getMilliseconds (t : Int) : Int := t % 1000

/-- JavaScript `new Date(y, m, d)` (local midnight of the possibly rolled-over
civil date). -/
def mkDate (y m d : Int) : Int := dayMs * daysFromCivil y m d

/-- JavaScript `x.setDate(d)`: replace the day-of-month (with rollover),
keeping year, month and time of day. -/
def setDate (t d : Int) : Int :=
  dayMs * daysFromCivil (getFullYear t) (getMonth t) d + timeOfDay t

/-- Embedding of `addDays` from `Calendar.tsx`:
`x.setDate(x.getDate() + deltaDays)`. -/
def addDays (t n : Int) : Int := setDate t ((getDate t : Int) + n)

/-- JavaScript `x.setMonth(m)`: replace the 0-based month (with rollover),
keeping the day-of-month field (which may itself roll over) and time of day. -/
def setMonth (t m : Int) : Int :=
  dayMs * daysFromCivil (getFullYear t) m (getDate t) + timeOfDay t

/-- Embedding of `addMonths` from `Calendar.tsx`:
`x.setMonth(x.getMonth() + deltaMonths)`. -/
def addMonths (t n : Int) : Int := setMonth t ((getMonth t : Int) + n)

/-- JavaScript `x.setFullYear(y)`, keeping month, day-of-month and time. -/
def setFullYear (t y : Int) : Int :=
  dayMs * daysFromCivil y (getMonth t) (getDate t) + timeOfDay t

/-- Embedding of `addYears` from `Calendar.tsx`:
`x.setFullYear(x.getFullYear() + deltaYears)`. -/
def addYears (t n : Int) : Int := setFullYear t (getFullYear t + n)

/-- Raw event record (`CalendarEvent` in `Calendar.tsx`).  The `string | Date`
inputs are modelled as already-parsed timestamps; parsing malformed strings is
outside the engine per spec section 4.1. -/
structure CalendarEvent where
  id : Option String
  title : String
  start : Int
  «end» : Option Int
  resourceId : Option String
  color : Option String
deriving DecidableEq

/-- Resource row (`CalendarResource` in `Calendar.tsx`). -/
structure CalendarResource where
  id : String
  title : String
deriving DecidableEq

/-- Canonical event (`NormalizedEvent` in `Calendar.tsx`), with the `raw`
back-reference to the original record. -/
structure NormalizedEvent where
  id : Option String
  title : String
  start : Int
  «end» : Int
  resourceId : Option String
  color : Option String
  raw : CalendarEvent
deriving DecidableEq

/-- View granularities (`CalendarView` in `Calendar.tsx`). -/
inductive CalendarView where
  | day
  | week
  | month
  | year
deriving DecidableEq

/-- Grid section (`ViewSection` in `Calendar.tsx`).  The source's `key` and
`title` fields are locale-dependent presentation strings (a non-core
presentation concern per spec section 4.2) and are not modelled; the
contractual data is `start`, `end` and `days`. -/
structure ViewSection where
  start : Int
  «end» : Int
  days : List Int
deriving DecidableEq

/-- Wrapper returned by `getViewModel` (`ViewModel` in `Calendar.tsx`). -/
structure ViewModel where
  «section» : ViewSection
deriving DecidableEq

/-- JavaScript truthiness of a `string | null | undefined` value: `null`,
`undefined` and the empty string are falsy. -/
def truthy (s : Option String) : Bool :=
  match s with
  | none => false
  | some v => v != ""

/-- `clamp` from `Calendar.tsx`: `Math.min(max, Math.max(min, v))`. -/
def clamp (v lo hi : Int) : Int := min hi (max lo v)

/-- `Math.round` on the exact rational `num / den` (`den > 0`):
floor of `num / den + 1 / 2`. -/
def jsRound (num den : Int) : Int := (2 * num + den) / (2 * den)

/-- `diffDays` from `Calendar.tsx`: `Math.round` of the difference of the
start-of-day timestamps divided by `24 * 60 * 60 * 1000`. -/
def diffDays (a b : Int) : Int := jsRound (startOfDay a - startOfDay b) dayMs

/-- `monthDays` from `Calendar.tsx`: local midnights of every day of the month
containing `anchor` (the loop `new Date(y, m, 1) .. new Date(y, m, last)` with
`last = new Date(y, m + 1, 0).getDate()`). -/
def monthDays (anchor : Int) : List Int :=
  let y := getFullYear anchor
  let m := getMonth anchor
  let last := mkDate y ((m : Int) + 1) 0
  (List.range (getDate last)).map (fun (i : Nat) => mkDate y (m : Int) ((i : Int) + 1))

/-- `weekDays` from `Calendar.tsx`: 7 days starting at the Monday on or before
`anchor`, via `mondayOffset = (day + 6) % 7` from the 0 = Sunday weekday
(`day + 6` is non-negative, so the JavaScript `%` agrees with `Int.emod`). -/
def weekDays (anchor : Int) : List Int :=
  let d := startOfDay anchor
  let day := getDay d
  let mondayOffset := (day + 6) % 7
  let start := addDays d (-mondayOffset)
  (List.range 7).map (fun (i : Nat) => addDays start (i : Int))

/-- `dayOnly` from `Calendar.tsx`. -/
def dayOnly (anchor : Int) : List Int := [startOfDay anchor]

/-- `getViewModel` from `Calendar.tsx`.  In the source the `month` code path is
the fall-through, also taken when `view = year`. -/
def getViewModel (activeDate : Int) (view : CalendarView) : ViewModel :=
  match view with
  | .day =>
    let days := dayOnly activeDate
    let start := days.getD 0 0
    ⟨⟨start, addDays start 1, days⟩⟩
  | .week =>
    let days := weekDays activeDate
    let start := days.getD 0 0
    ⟨⟨start, addDays start 7, days⟩⟩
  | _ =>
    let days := monthDays activeDate
    ⟨⟨startOfDay (days.getD 0 0), addDays (startOfDay (days.getD (days.length - 1) 0)) 1, days⟩⟩

/-- `getYearSections` from `Calendar.tsx`: twelve month sections for the year
containing `activeDate`, each anchored at `new Date(y, i, 1)`. -/
def getYearSections (activeDate : Int) : List ViewSection :=
  let y := getFullYear activeDate
  (List.range 12).map (fun (i : Nat) =>
    let anchor := mkDate y (i : Int) 1
    let days := monthDays anchor
    ⟨startOfDay (days.getD 0 0), addDays (startOfDay (days.getD (days.length - 1) 0)) 1, days⟩)

/-- `addByView` from `Calendar.tsx`, the single navigation step used by the
`goPrev`/`goNext` toolbar callbacks. -/
def addByView (d : Int) (view : CalendarView) (delta : Int) : Int :=
  match view with
  | .day => addDays d delta
  | .week => addDays d (delta * 7)
  | .month => addMonths d delta
  | .year => addYears d delta

/-- The section list the component renders (the `sections` memo in
`Calendar.tsx`): `getYearSections` for the year view, otherwise the single
`getViewModel` section. -/
def sectionsFor (activeDate : Int) (view : CalendarView) : List ViewSection :=
  match view with
  | .year => getYearSections activeDate
  | _ => [(getViewModel activeDate view).«section»]

/-- Single-event body of `normalizeEvents` from `Calendar.tsx`.  A JavaScript
`Date` object is always truthy, so `e.end ? toDate(e.end) : addDays(start, 1)`
is a presence test in this model. -/
def normalizeEvent (e : CalendarEvent) : NormalizedEvent :=
  let start := startOfDay e.start
  let endRaw := match e.«end» with
    | some v => v
    | none => addDays start 1
  let endDay := startOfDay endRaw
  let hasTime := getHours endRaw != 0 || getMinutes endRaw != 0 ||
    getSeconds endRaw != 0 || getMilliseconds endRaw != 0
  let endD := if hasTime then addDays endDay 1 else endDay
  let safeEnd := if endD ≤ start then addDays start 1 else endD
  { id := e.id, title := e.title, start := start, «end» := safeEnd,
    resourceId := e.resourceId, color := e.color, raw := e }

/-- `normalizeEvents` from `Calendar.tsx`. -/
def normalizeEvents (events : List CalendarEvent) : List NormalizedEvent :=
  events.map normalizeEvent

/-- Positioned-event descriptor: an element of the `visible` array computed by
`renderEventsForSection` in `Calendar.tsx` before markup generation. -/
structure PositionedEvent where
  ev : NormalizedEvent
  startIndex : Int
  endIndex : Int
  resourceIndex : Int
deriving DecidableEq

/-- JavaScript `resources.findIndex((r) => r.id === ev.resourceId)`: first
matching index or `-1`; `null` compares unequal to every string under `===`. -/
def findIndexById (resources : List CalendarResource) (rid : Option String) : Int :=
  match resources.findIdx? (fun r => some r.id == rid) with
  | some i => (i : Int)
  | none => -1

/-- The pure core of `renderEventsForSection` from `Calendar.tsx`: the
`visible` list — filter by truthy `resourceId` and open-interval intersection
with the section, clip to the section, map to column indices with the
minimum-width `Math.max`, and drop events whose resource is not found. -/
def renderEventsForSection (sec : ViewSection) (resources : List CalendarResource)
    (events : List NormalizedEvent) : List PositionedEvent :=
  ((events.filter (fun ev =>
      truthy ev.resourceId
        && (decide (sec.start < ev.«end») && decide (ev.start < sec.«end»)))).map
    (fun ev =>
      let start := if ev.start < sec.start then sec.start else ev.start
      let endT := if sec.«end» < ev.«end» then sec.«end» else ev.«end»
      let startIndex := diffDays start sec.start
      let endIndex := diffDays endT sec.start
      { ev := ev, startIndex := startIndex, endIndex := max (startIndex + 1) endIndex,
        resourceIndex := findIndexById resources ev.resourceId })).filter
    (fun x => decide (0 ≤ x.resourceIndex))

/-- Drag gesture state (the `drag` React state in `Calendar.tsx`). -/
structure DragState where
  pointerId : Int
  eventId : String
  origin : NormalizedEvent
  startX : Int
  startY : Int
  deltaDays : Int
  targetResourceIndex : Int
deriving DecidableEq

/-- `onEventPointerDown` from `Calendar.tsx` as a pure transition on the
optional drag slot.  `bodyPresent` models the `bodyRef.current` null check and
`rectTop` the grid's bounding-rectangle top; `Math.floor` of the division by
the positive `rowHeight` is integer (Euclidean) division.  The JavaScript
guard `if (!ev.id) return` is a truthiness test, and `setDrag` then runs
unconditionally — the handler never consults the existing drag state. -/
def onEventPointerDown (drag : Option DragState) (bodyPresent : Bool) (rectTop : Int)
    (pointerId clientX clientY : Int) (ev : NormalizedEvent)
    (resources : List CalendarResource) (rowHeight : Int) : Option DragState :=
  if !truthy ev.id then drag
  else if !bodyPresent then drag
  else
    some {
      pointerId := pointerId
      eventId := ev.id.getD ""
      origin := ev
      startX := clientX
      startY := clientY
      deltaDays := 0
      targetResourceIndex := clamp ((clientY - rectTop) / rowHeight) 0
        (max 0 ((resources.length : Int) - 1)) }

/-- JavaScript `resources[i]?.` optional indexing (`undefined` when out of
range). -/
def resourceAt (resources : List CalendarResource) (i : Int) : Option CalendarResource :=
  if 0 ≤ i then resources.get? i.toNat else none

/-- `onEventPointerUp` from `Calendar.tsx` as a pure function of the drag slot
and the pointer id of the `pointerup` event: returns the next drag state
together with the reschedule intent passed to `onEventChange` (if any).  The
guard `if (!nextResourceId)` is a truthiness test, so a resource whose `id` is
the empty string also discards the gesture. -/
def onEventPointerUp (drag : Option DragState) (pointerId : Int)
    (resources : List CalendarResource) : Option DragState × Option CalendarEvent :=
  match drag with
  | none => (none, none)
  | some d =>
    if pointerId != d.pointerId then (some d, none)
    else
      match resourceAt resources d.targetResourceIndex with
      | none => (none, none)
      | some r =>
        if r.id == "" then (none, none)
        else
          (none, some { d.origin.raw with
            id := d.origin.id
            start := addDays d.origin.start d.deltaDays
            «end» := some (addDays d.origin.«end» d.deltaDays)
            resourceId := some r.id })

/-- Days list is contiguous ascending: each entry is the previous one plus one
calendar day. -/
def contiguousDays (days : List Int) : Prop :=
  ∀ i : Nat, i + 1 < days.length → days.getD (i + 1) 0 = addDays (days.getD i 0) 1

/-- Concrete fixtures used to instantiate the theorems on closed inputs. -/
def sampleResources : List CalendarResource := [⟨"r1", "A"⟩, ⟨"r2", "B"⟩, ⟨"r3", "C"⟩]

/-- Raw event spanning [2024-01-08, 2024-01-13) on resource r1 (5 days). -/
def sampleRaw : CalendarEvent :=
  ⟨some "e1", "t", mkDate 2024 0 8, some (mkDate 2024 0 13), some "r1", none⟩

/-- Normalization of `sampleRaw`. -/
def sampleEv : NormalizedEvent := normalizeEvent sampleRaw

/-- The one-day section of 2024-01-10. -/
def sampleDaySection : ViewSection := (getViewModel (mkDate 2024 0 10) CalendarView.day).«section»

/-- Descriptor of `sampleEv` clipped to `sampleDaySection`: one column of width 1. -/
def sampleP : PositionedEvent := ⟨sampleEv, 0, 1, 0⟩

/-- Raw event [2024-01-10, 2024-01-11) on r1, the spec's drag test vector. -/
def dragRaw : CalendarEvent :=
  ⟨some "e1", "t", mkDate 2024 0 10, some (mkDate 2024 0 11), some "r1", none⟩

/-- An active drag of `dragRaw` by pointer 7, shifted 3 days, over row 2. -/
def sampleDrag : DragState := ⟨7, "e1", normalizeEvent dragRaw, 100, 50, 3, 2⟩

/-- Resource list whose only row carries the empty string as id. -/
def emptyIdResources : List CalendarResource := [⟨"", "R"⟩]

/-- Event assigned to the empty-string resource id, covering 2024-01-10. -/
def emptyIdRaw : CalendarEvent :=
  ⟨some "e9", "t", mkDate 2024 0 10, some (mkDate 2024 0 11), some "", none⟩

/-- An active drag of `sampleRaw`'s event by pointer 1 over row 0. -/
def emptyDrag : DragState := ⟨1, "e1", sampleEv, 100, 50, 0, 0⟩

theorem daysToYear_bounds (y : Int) :
    146097 * y - 396 ≤ 400 * daysToYear y ∧ 400 * daysToYear y ≤ 146097 * y + 699 := by
  unfold daysToYear
  omega

theorem isLeap_iff (y : Int) :
    isLeap y = true ↔ (y % 4 = 0 ∧ y % 100 ≠ 0) ∨ y % 400 = 0 := by
  simp [isLeap]

theorem daysToYear_step (y : Int) :
    daysToYear (y + 1) = daysToYear y + 365 + (if isLeap y then 1 else 0) := by
  have h := isLeap_iff y
  unfold daysToYear
  rcases hb : isLeap y with _ | _ <;> simp [hb] at h ⊢ <;> omega

theorem daysToYear_lt {y y' : Int} (h : y < y') : daysToYear y < daysToYear y' := by
  unfold daysToYear
  omega

theorem yearOfDay_spec (z : Int) :
    daysToYear (yearOfDay z) ≤ z ∧ z < daysToYear (yearOfDay z + 1) := by
  simp only [yearOfDay]
  set q := (400 * z + 591) / 146097 with hqdef
  have hq : 146097 * q ≤ 400 * z + 591 ∧ 400 * z + 591 < 146097 * q + 146097 := by
    rw [hqdef]; omega
  have b1 := daysToYear_bounds (q - 1)
  have b2 := daysToYear_bounds q
  have b3 := daysToYear_bounds (q + 1)
  have b4 := daysToYear_bounds (q + 2)
  have e1 : q - 1 + 1 = q := by omega
  have e2 : q + 1 + 1 = q + 2 := by omega
  split
  · rw [e1]; constructor
    · omega
    · assumption
  · split
    · rw [e2]; omega
    · omega

theorem yearOfDay_eq (z y : Int) (h1 : daysToYear y ≤ z) (h2 : z < daysToYear (y + 1)) :
    yearOfDay z = y := by
  have hs := yearOfDay_spec z
  rcases lt_trichotomy (yearOfDay z) y with h | h | h
  · have : yearOfDay z + 1 ≤ y := by omega
    have : daysToYear (yearOfDay z + 1) ≤ daysToYear y := by
      rcases eq_or_lt_of_le this with he | hl
      · rw [he]
      · exact le_of_lt (daysToYear_lt hl)
    omega
  · exact h
  · have : y + 1 ≤ yearOfDay z := by omega
    have : daysToYear (y + 1) ≤ daysToYear (yearOfDay z) := by
      rcases eq_or_lt_of_le this with he | hl
      · rw [he]
      · exact le_of_lt (daysToYear_lt hl)
    omega

theorem daysInMonth_le (leap : Bool) : ∀ m < 12, daysInMonth leap m ≤ 31 := by
  cases leap <;> decide

theorem daysInMonth_ge (leap : Bool) : ∀ m < 12, 28 ≤ daysInMonth leap m := by
  cases leap <;> decide

theorem daysBeforeMonth_add_le (leap : Bool) :
    ∀ m < 12, daysBeforeMonth leap m + daysInMonth leap m ≤ 365 + (if leap then 1 else 0) := by
  cases leap <;> decide

theorem daysBeforeMonth_succ (leap : Bool) :
    ∀ m < 11, daysBeforeMonth leap (m + 1) = daysBeforeMonth leap m + daysInMonth leap m := by
  cases leap <;> decide

theorem daysBeforeMonth_last (leap : Bool) :
    daysBeforeMonth leap 11 + 31 = 365 + (if leap then 1 else 0) := by
  cases leap <;> decide

theorem monthAndDay_of_dbm (leap : Bool) :
    ∀ m < 12, ∀ e < 31, e < daysInMonth leap m →
      monthAndDay leap (daysBeforeMonth leap m + e) = (m, e + 1) := by
  cases leap <;> decide

theorem monthAndDay_spec (leap : Bool) :
    ∀ doy < 366, doy < 365 + (if leap then 1 else 0) →
      (monthAndDay leap doy).1 < 12 ∧ 1 ≤ (monthAndDay leap doy).2 ∧
      (monthAndDay leap doy).2 ≤ daysInMonth leap (monthAndDay leap doy).1 ∧
      daysBeforeMonth leap (monthAndDay leap doy).1 + (monthAndDay leap doy).2 - 1 = doy := by
  cases leap <;> decide

theorem civilFromDays_valid_triple (y : Int) (m e : Nat) (hm : m < 12)
    (he : e < daysInMonth (isLeap y) m) :
    civilFromDays (daysToYear y + (daysBeforeMonth (isLeap y) m : Int) + e) = (y, m, e + 1) := by
  have hdbm := daysBeforeMonth_add_le (isLeap y) m hm
  have hstep := daysToYear_step y
  have hy : yearOfDay (daysToYear y + (daysBeforeMonth (isLeap y) m : Int) + e) = y := by
    refine yearOfDay_eq _ y (by omega) ?_
    rw [hstep]
    cases hb : isLeap y <;> simp [hb] at hdbm he ⊢ <;> omega
  simp only [civilFromDays, hy]
  have htn : (daysToYear y + (daysBeforeMonth (isLeap y) m : Int) + e - daysToYear y).toNat
      = daysBeforeMonth (isLeap y) m + e := by omega
  rw [htn, monthAndDay_of_dbm (isLeap y) m hm e (by
    have := daysInMonth_le (isLeap y) m hm; omega) he]

theorem civilFromDays_daysFromCivil (y : Int) (m d : Nat) (hm : m < 12) (hd1 : 1 ≤ d)
    (hd2 : d ≤ daysInMonth (isLeap y) m) :
    civilFromDays (daysFromCivil y (m : Int) (d : Int)) = (y, m, d) := by
  have h1 : y + (m : Int) / 12 = y := by omega
  have h2 : (((m : Int)) % 12).toNat = m := by omega
  have h3 : daysToYear y + (daysBeforeMonth (isLeap y) m : Int) + (d : Int) - 1
      = daysToYear y + (daysBeforeMonth (isLeap y) m : Int) + ((d - 1 : Nat) : Int) := by
    omega
  simp only [daysFromCivil, h1, h2, h3]
  rw [civilFromDays_valid_triple y m (d - 1) hm (by omega)]
  have : d - 1 + 1 = d := by omega
  rw [this]

theorem civilFromDays_spec (z : Int) :
    (civilFromDays z).2.1 < 12 ∧ 1 ≤ (civilFromDays z).2.2 ∧
    (civilFromDays z).2.2 ≤ daysInMonth (isLeap (civilFromDays z).1) (civilFromDays z).2.1 ∧
    daysFromCivil (civilFromDays z).1 ((civilFromDays z).2.1 : Int) ((civilFromDays z).2.2 : Int)
      = z := by
  have hs := yearOfDay_spec z
  have hstep := daysToYear_step (yearOfDay z)
  have hdoy : (z - daysToYear (yearOfDay z)).toNat < 365 + (if isLeap (yearOfDay z) then 1 else 0) := by
    cases hb : isLeap (yearOfDay z) <;> simp [hb] at hstep ⊢ <;> omega
  have hdoy366 : (z - daysToYear (yearOfDay z)).toNat < 366 := by
    cases hb : isLeap (yearOfDay z) <;> simp [hb] at hdoy ⊢ <;> omega
  have hmd := monthAndDay_spec (isLeap (yearOfDay z)) _ hdoy366 hdoy
  simp only [civilFromDays]
  refine ⟨hmd.1, hmd.2.1, hmd.2.2.1, ?_⟩
  have h1 : yearOfDay z + ((((monthAndDay (isLeap (yearOfDay z))
      (z - daysToYear (yearOfDay z)).toNat).1 : Nat) : Int)) / 12 = yearOfDay z := by
    have := hmd.1; omega
  have h2 : (((((monthAndDay (isLeap (yearOfDay z))
      (z - daysToYear (yearOfDay z)).toNat).1 : Nat) : Int)) % 12).toNat
      = (monthAndDay (isLeap (yearOfDay z)) (z - daysToYear (yearOfDay z)).toNat).1 := by
    have := hmd.1; omega
  simp only [daysFromCivil, h1, h2]
  have := hmd.2.2.2
  have hz := hs.1
  omega

theorem daysFromCivil_day_shift (y m d n : Int) :
    daysFromCivil y m (d + n) = daysFromCivil y m d + n := by
  simp only [daysFromCivil]
  ring

theorem addDays_eq (t n : Int) : addDays t n = t + n * dayMs := by
  have h := (civilFromDays_spec (toDay t)).2.2.2
  simp only [addDays, setDate, getFullYear, getMonth, getDate]
  rw [daysFromCivil_day_shift, h]
  simp only [toDay, timeOfDay, dayMs] at *
  omega

theorem toDay_mkDate (y m d : Int) : toDay (mkDate y m d) = daysFromCivil y m d := by
  simp only [toDay, mkDate, dayMs]
  omega

theorem timeOfDay_mkDate (y m d : Int) : timeOfDay (mkDate y m d) = 0 := by
  simp only [timeOfDay, mkDate, dayMs]
  omega

theorem startOfDay_eq (t : Int) : startOfDay t = dayMs * toDay t := by
  simp only [startOfDay, toDay, dayMs]
  omega

theorem timeOfDay_startOfDay (t : Int) : timeOfDay (startOfDay t) = 0 := by
  simp only [startOfDay, timeOfDay, dayMs]
  omega

theorem startOfDay_of_timeOfDay_eq_zero (t : Int) (h : timeOfDay t = 0) : startOfDay t = t := by
  simp only [timeOfDay] at h
  simp only [startOfDay, h]
  omega

theorem toDay_startOfDay (t : Int) : toDay (startOfDay t) = toDay t := by
  simp only [startOfDay, toDay, dayMs]
  omega

theorem civilFromDays_mkDate (y : Int) (m d : Nat) (hm : m < 12) (hd1 : 1 ≤ d)
    (hd2 : d ≤ daysInMonth (isLeap y) m) :
    civilFromDays (toDay (mkDate y (m : Int) (d : Int))) = (y, m, d) := by
  rw [toDay_mkDate]
  exact civilFromDays_daysFromCivil y m d hm hd1 hd2

theorem timeOfDay_bounds (t : Int) : 0 ≤ timeOfDay t ∧ timeOfDay t < dayMs := by
  simp only [timeOfDay, dayMs]
  omega

theorem toDay_of_day_tod (a tod : Int) (h0 : 0 ≤ tod) (h1 : tod < dayMs) :
    toDay (dayMs * a + tod) = a := by
  simp only [toDay, dayMs] at *
  omega

theorem civilFromDays_daysFromCivil_any (y m d : Int) (hd1 : 1 ≤ d) (hd28 : d ≤ 28) :
    civilFromDays (daysFromCivil y m d) = (y + m / 12, (m % 12).toNat, d.toNat) := by
  simp only [daysFromCivil]
  have hm1lt : (m % 12).toNat < 12 := by omega
  have hsplit : daysToYear (y + m / 12) + (daysBeforeMonth (isLeap (y + m / 12)) (m % 12).toNat : Int) + d - 1
      = daysToYear (y + m / 12) + (daysBeforeMonth (isLeap (y + m / 12)) (m % 12).toNat : Int)
        + ((d.toNat - 1 : Nat) : Int) := by
    omega
  rw [hsplit, civilFromDays_valid_triple (y + m / 12) ((m % 12).toNat) (d.toNat - 1) hm1lt
    (by have := daysInMonth_ge (isLeap (y + m / 12)) ((m % 12).toNat) hm1lt; omega)]
  have : d.toNat - 1 + 1 = d.toNat := by omega
  rw [this]

theorem getters_spec (t : Int) :
    getMonth t < 12 ∧ 1 ≤ getDate t ∧
    getDate t ≤ daysInMonth (isLeap (getFullYear t)) (getMonth t) ∧
    daysFromCivil (getFullYear t) ((getMonth t : Int)) ((getDate t : Int)) = toDay t :=
  civilFromDays_spec (toDay t)

theorem addMonths_def (t n : Int) :
    addMonths t n = dayMs * daysFromCivil (getFullYear t) ((getMonth t : Int) + n) (getDate t)
      + timeOfDay t := rfl

theorem addMonths_zero (t : Int) : addMonths t 0 = t := by
  have h := (getters_spec t).2.2.2
  rw [addMonths_def]
  have e : (getMonth t : Int) + 0 = (getMonth t : Int) := by omega
  rw [e, h]
  simp only [toDay, timeOfDay, dayMs]
  omega

theorem addMonths_components (t n : Int) (hd : getDate t ≤ 28) :
    getFullYear (addMonths t n) = getFullYear t + ((getMonth t : Int) + n) / 12 ∧
    ((getMonth (addMonths t n) : Nat) : Int) = ((getMonth t : Int) + n) % 12 ∧
    getDate (addMonths t n) = getDate t ∧
    timeOfDay (addMonths t n) = timeOfDay t := by
  have hv := getters_spec t
  have htod := timeOfDay_bounds t
  have hday : toDay (addMonths t n)
      = daysFromCivil (getFullYear t) ((getMonth t : Int) + n) (getDate t) := by
    rw [addMonths_def]
    exact toDay_of_day_tod _ _ htod.1 htod.2
  have htod2 : timeOfDay (addMonths t n) = timeOfDay t := by
    rw [addMonths_def]
    simp only [timeOfDay, dayMs] at htod ⊢
    omega
  have hcfd : civilFromDays (toDay (addMonths t n))
      = (getFullYear t + ((getMonth t : Int) + n) / 12,
         (((getMonth t : Int) + n) % 12).toNat, (getDate t : Int).toNat) := by
    rw [hday]
    exact civilFromDays_daysFromCivil_any _ _ _ (by exact_mod_cast hv.2.1) (by exact_mod_cast hd)
  refine ⟨?_, ?_, ?_, htod2⟩
  · show (civilFromDays (toDay (addMonths t n))).1 = _
    rw [hcfd]
  · show (((civilFromDays (toDay (addMonths t n))).2.1 : Nat) : Int) = _
    rw [hcfd]
    simp only
    omega
  · show (civilFromDays (toDay (addMonths t n))).2.2 = _
    rw [hcfd]
    simp only
    omega

theorem addMonths_addMonths (t a b : Int) (hd : getDate t ≤ 28) :
    addMonths (addMonths t a) b = addMonths t (a + b) := by
  obtain ⟨hy, hm, hdt, htod⟩ := addMonths_components t a hd
  rw [addMonths_def (addMonths t a) b, hy, hdt, htod, addMonths_def t (a + b)]
  have hm' : (getMonth (addMonths t a) : Int) + b = ((getMonth t : Int) + a) % 12 + b := by
    rw [hm]
  rw [hm']
  have hfix : ∀ yy mm : Int, daysFromCivil yy mm (getDate t)
      = daysToYear (yy + mm / 12) + (daysBeforeMonth (isLeap (yy + mm / 12)) ((mm % 12).toNat) : Int)
        + (getDate t : Int) - 1 := by
    intro yy mm
    rfl
  rw [hfix, hfix]
  have h1 : getFullYear t + ((getMonth t : Int) + a) / 12 + (((getMonth t : Int) + a) % 12 + b) / 12
      = getFullYear t + ((getMonth t : Int) + (a + b)) / 12 := by
    omega
  have h2 : ((((getMonth t : Int) + a) % 12 + b) % 12).toNat
      = (((getMonth t : Int) + (a + b)) % 12).toNat := by
    omega
  rw [h1, h2]

theorem setFullYear_components (t y : Int) (hd : getDate t ≤ 28) :
    getFullYear (setFullYear t y) = y ∧
    getMonth (setFullYear t y) = getMonth t ∧
    getDate (setFullYear t y) = getDate t ∧
    timeOfDay (setFullYear t y) = timeOfDay t := by
  have hv := getters_spec t
  have htod := timeOfDay_bounds t
  have hday : toDay (setFullYear t y)
      = daysFromCivil y ((getMonth t : Int)) (getDate t) := by
    unfold setFullYear
    exact toDay_of_day_tod _ _ htod.1 htod.2
  have htod2 : timeOfDay (setFullYear t y) = timeOfDay t := by
    unfold setFullYear
    simp only [timeOfDay, dayMs] at htod ⊢
    omega
  have hcfd : civilFromDays (toDay (setFullYear t y)) = (y, getMonth t, getDate t) := by
    rw [hday]
    have := civilFromDays_daysFromCivil_any y ((getMonth t : Int)) ((getDate t : Int))
      (by exact_mod_cast hv.2.1) (by exact_mod_cast hd)
    rw [this]
    have e1 : y + ((getMonth t : Int)) / 12 = y := by have := hv.1; omega
    have e2 : (((getMonth t : Int)) % 12).toNat = getMonth t := by have := hv.1; omega
    have e3 : ((getDate t : Int)).toNat = getDate t := by omega
    rw [e1, e2, e3]
  refine ⟨?_, ?_, ?_, htod2⟩
  · show (civilFromDays (toDay (setFullYear t y))).1 = _
    rw [hcfd]
  · show (civilFromDays (toDay (setFullYear t y))).2.1 = _
    rw [hcfd]
  · show (civilFromDays (toDay (setFullYear t y))).2.2 = _
    rw [hcfd]

theorem setFullYear_def (t y : Int) :
    setFullYear t y
      = dayMs * daysFromCivil y ((getMonth t : Int)) ((getDate t : Int)) + timeOfDay t := rfl

theorem addYears_zero (t : Int) : addYears t 0 = t := by
  have h := (getters_spec t).2.2.2
  show setFullYear t (getFullYear t + 0) = t
  rw [setFullYear_def]
  have e : getFullYear t + 0 = getFullYear t := by omega
  rw [e, h]
  simp only [toDay, timeOfDay, dayMs]
  omega

theorem addYears_addYears (t a b : Int) (hd : getDate t ≤ 28) :
    addYears (addYears t a) b = addYears t (a + b) := by
  obtain ⟨hy, hm, hdt, htod⟩ := setFullYear_components t (getFullYear t + a) hd
  show setFullYear (setFullYear t (getFullYear t + a))
      (getFullYear (setFullYear t (getFullYear t + a)) + b)
    = setFullYear t (getFullYear t + (a + b))
  rw [setFullYear_def (setFullYear t (getFullYear t + a)), hy, hm, hdt, htod, setFullYear_def t]
  have e : getFullYear t + a + b = getFullYear t + (a + b) := by ring
  rw [e]

theorem mkDate_succ (y m d : Int) : mkDate y m (d + 1) = mkDate y m d + dayMs := by
  simp only [mkDate, daysFromCivil_day_shift]
  ring

theorem getDate_mkDate_zero (y : Int) (m : Nat) (hm : m < 12) :
    getDate (mkDate y ((m : Int) + 1) 0) = daysInMonth (isLeap y) m := by
  unfold getDate
  rw [toDay_mkDate]
  rcases Nat.lt_or_ge m 11 with h11 | h11
  · have e1 : y + ((m : Int) + 1) / 12 = y := by omega
    have e2 : (((m : Int) + 1) % 12).toNat = m + 1 := by omega
    have hstep := daysBeforeMonth_succ (isLeap y) m h11
    have hdim := daysInMonth_ge (isLeap y) m hm
    have e3 : daysToYear y + (daysBeforeMonth (isLeap y) (m + 1) : Int) + 0 - 1
        = daysToYear y + (daysBeforeMonth (isLeap y) m : Int)
          + ((daysInMonth (isLeap y) m - 1 : Nat) : Int) := by
      rw [hstep]
      push_cast
      omega
    simp only [daysFromCivil, e1, e2, e3]
    rw [civilFromDays_valid_triple y m (daysInMonth (isLeap y) m - 1) hm (by omega)]
    simp only
    omega
  · have hm11 : m = 11 := by omega
    subst hm11
    have harg : daysFromCivil y (((11 : Nat) : Int) + 1) 0
        = daysToYear y + (daysBeforeMonth (isLeap y) 11 : Int) + ((30 : Nat) : Int) := by
      simp only [daysFromCivil]
      norm_num
      have hstep := daysToYear_step y
      have hlast := daysBeforeMonth_last (isLeap y)
      have hb0 : daysBeforeMonth (isLeap (y + 1)) 0 = 0 := by
        cases isLeap (y + 1) <;> rfl
      rw [hb0]
      cases hb : isLeap y <;> simp [hb] at hstep hlast <;> omega
    rw [harg, civilFromDays_valid_triple y 11 30 (by omega) (by
      have h31 : daysInMonth (isLeap y) 11 = 31 := by cases isLeap y <;> rfl
      omega)]
    have h31 : daysInMonth (isLeap y) 11 = 31 := by cases isLeap y <;> rfl
    rw [h31]

theorem diffDays_eq (a b : Int) : diffDays a b = toDay a - toDay b := by
  simp only [diffDays, jsRound, startOfDay, toDay, dayMs]
  have e : (2 : Int) * 86400000 = 172800000 := by norm_num
  rw [e]
  omega

theorem toDay_addDays (t n : Int) : toDay (addDays t n) = toDay t + n := by
  rw [addDays_eq]
  simp only [toDay, dayMs]
  omega

theorem timeOfDay_addDays (t n : Int) : timeOfDay (addDays t n) = timeOfDay t := by
  rw [addDays_eq]
  simp only [timeOfDay, dayMs]
  omega

theorem addDays_addDays (t a b : Int) : addDays (addDays t a) b = addDays t (a + b) := by
  simp only [addDays_eq]
  ring

theorem addDays_zero_day (t : Int) : addDays t 0 = t := by
  rw [addDays_eq]
  ring

theorem findIndexById_nonneg (resources : List CalendarResource) (rid : Option String) :
    decide (0 ≤ findIndexById resources rid)
      = resources.any (fun r => some r.id == rid) := by
  unfold findIndexById
  rw [← List.findIdx?_isSome]
  cases hf : resources.findIdx? (fun r => some r.id == rid) <;> simp [hf]

theorem findIndexById_lt_length (resources : List CalendarResource) (rid : Option String)
    (h : 0 ≤ findIndexById resources rid) :
    findIndexById resources rid < (resources.length : Int) := by
  cases hf : resources.findIdx? (fun r => some r.id == rid) with
  | none =>
    exfalso
    simp only [findIndexById, hf] at h
    omega
  | some i =>
    simp only [findIndexById, hf]
    have := (List.findIdx?_eq_some_iff_findIdx_eq.mp hf).1
    omega

theorem getD_range_map {α : Type} (f : Nat → α) (x : α) (n i : Nat) (h : i < n) :
    ((List.range n).map f).getD i x = f i := by
  rw [List.getD_eq_getElem?_getD, List.getElem?_map, List.getElem?_range h]
  rfl

theorem length_range_map (f : Nat → Int) (n : Nat) : ((List.range n).map f).length = n := by
  simp

theorem filter_map_filter_map {α β : Type} (l : List α) (f1 : α → Bool) (g : α → β)
    (f2 : β → Bool) (h : β → α) (hg : ∀ a, h (g a) = a) :
    (((l.filter f1).map g).filter f2).map h = l.filter (fun a => f1 a && f2 (g a)) := by
  induction l with
  | nil => rfl
  | cons a l ih =>
    cases h1 : f1 a
    · simp [List.filter_cons, h1, ih]
    · cases h2 : f2 (g a)
      · simp [List.filter_cons, h1, h2, ih]
      · simp [List.filter_cons, h1, h2, hg, ih]

theorem hasTime_false_of (v : Int) (h : timeOfDay v = 0) :
    (getHours v != 0 || getMinutes v != 0 || getSeconds v != 0 || getMilliseconds v != 0)
      = false := by
  simp only [getHours, getMinutes, getSeconds, getMilliseconds, timeOfDay, dayMs] at *
  simp only [Bool.or_eq_false_iff, bne_eq_false_iff_eq]
  omega

theorem hasTime_true_of (v : Int) (h : timeOfDay v ≠ 0) :
    (getHours v != 0 || getMinutes v != 0 || getSeconds v != 0 || getMilliseconds v != 0)
      = true := by
  simp only [getHours, getMinutes, getSeconds, getMilliseconds, timeOfDay, dayMs] at *
  simp only [Bool.or_eq_true, bne_iff_ne]
  omega

theorem iterate_add_const (c : Int) (k : Nat) (t : Int) :
    (fun d => d + c)^[k] t = t + (k : Int) * c := by
  induction k generalizing t with
  | zero => simp
  | succ k ih =>
    rw [Function.iterate_succ_apply, ih]
    push_cast
    ring

theorem iterate_addMonths (k : Nat) (t : Int) (hd : getDate t ≤ 28) (c : Int) :
    (fun d => addMonths d c)^[k] t = addMonths t ((k : Int) * c) := by
  induction k with
  | zero => simp [addMonths_zero]
  | succ k ih =>
    rw [Function.iterate_succ_apply', ih]
    show addMonths (addMonths t ((k : Int) * c)) c = _
    rw [addMonths_addMonths t _ _ hd]
    push_cast
    ring_nf

theorem iterate_addYears (k : Nat) (t : Int) (hd : getDate t ≤ 28) (c : Int) :
    (fun d => addYears d c)^[k] t = addYears t ((k : Int) * c) := by
  induction k with
  | zero => simp [addYears_zero]
  | succ k ih =>
    rw [Function.iterate_succ_apply', ih]
    show addYears (addYears t ((k : Int) * c)) c = _
    rw [addYears_addYears t _ _ hd]
    push_cast
    ring_nf

theorem weekDays_eq (t : Int) :
    weekDays t = (List.range 7).map
      (fun (i : Nat) =>
        addDays (addDays (startOfDay t) (-((getDay (startOfDay t) + 6) % 7))) (i : Int)) :=
  rfl

theorem weekDays_length (t : Int) : (weekDays t).length = 7 := by
  rw [weekDays_eq]
  simp

theorem weekDays_getD (t : Int) (i : Nat) (hi : i < 7) :
    (weekDays t).getD i 0
      = addDays (addDays (startOfDay t) (-((getDay (startOfDay t) + 6) % 7))) (i : Int) := by
  rw [weekDays_eq, getD_range_map _ 0 7 i hi]

theorem weekDays_contiguous (t : Int) : contiguousDays (weekDays t) := by
  intro i hi
  rw [weekDays_length] at hi
  rw [weekDays_getD t (i + 1) (by omega), weekDays_getD t i (by omega),
    addDays_addDays (addDays (startOfDay t) (-((getDay (startOfDay t) + 6) % 7))) (i : Int) 1]
  congr 1

theorem monthDays_eq (anchor : Int) :
    monthDays anchor
      = (List.range (daysInMonth (isLeap (getFullYear anchor)) (getMonth anchor))).map
          (fun (i : Nat) =>
            mkDate (getFullYear anchor) ((getMonth anchor : Nat) : Int) ((i : Int) + 1)) := by
  simp only [monthDays]
  rw [getDate_mkDate_zero (getFullYear anchor) (getMonth anchor) (getters_spec anchor).1]

theorem monthDays_length (anchor : Int) :
    (monthDays anchor).length = daysInMonth (isLeap (getFullYear anchor)) (getMonth anchor) := by
  rw [monthDays_eq]
  simp

theorem monthDays_getD (anchor : Int) (i : Nat)
    (hi : i < daysInMonth (isLeap (getFullYear anchor)) (getMonth anchor)) :
    (monthDays anchor).getD i 0
      = mkDate (getFullYear anchor) ((getMonth anchor : Nat) : Int) ((i : Int) + 1) := by
  rw [monthDays_eq, getD_range_map _ 0 _ i hi]

theorem monthDays_ne_nil (anchor : Int) : monthDays anchor ≠ [] := by
  have h28 := daysInMonth_ge (isLeap (getFullYear anchor)) (getMonth anchor) (getters_spec anchor).1
  have hlen := monthDays_length anchor
  intro hnil
  rw [hnil] at hlen
  simp only [List.length_nil] at hlen
  omega

theorem monthDays_contiguous (anchor : Int) : contiguousDays (monthDays anchor) := by
  intro i hi
  rw [monthDays_length] at hi
  rw [monthDays_getD anchor (i + 1) (by omega), monthDays_getD anchor i (by omega)]
  have e : ((i + 1 : Nat) : Int) + 1 = ((i : Int) + 1) + 1 := by
    push_cast
    ring
  rw [e, mkDate_succ, addDays_eq]
  ring

theorem mkDate_components (y : Int) (m d : Nat) (hm : m < 12) (hd1 : 1 ≤ d)
    (hd2 : d ≤ daysInMonth (isLeap y) m) :
    getFullYear (mkDate y (m : Int) (d : Int)) = y
    ∧ getMonth (mkDate y (m : Int) (d : Int)) = m
    ∧ getDate (mkDate y (m : Int) (d : Int)) = d := by
  have h := civilFromDays_mkDate y m d hm hd1 hd2
  refine ⟨?_, ?_, ?_⟩
  · unfold getFullYear
    rw [h]
  · unfold getMonth
    rw [h]
  · unfold getDate
    rw [h]

/-- C1: for every raw event, normalization floors `start` to local midnight; an
absent `end` defaults to `start + 1 day`; a present `end` carrying a
non-midnight time-of-day is floored to its day's midnight and rounded up to
the following midnight (forced to `start + 1 day` when that lands at or before
`start`); and every canonical event satisfies `end > start`. -/
theorem normalizeEvent_canonical (e : CalendarEvent) :
    (normalizeEvent e).start = startOfDay e.start
    ∧ (e.«end» = none → (normalizeEvent e).«end» = addDays (startOfDay e.start) 1)
    ∧ (∀ v, e.«end» = some v → timeOfDay v ≠ 0 →
        (normalizeEvent e).«end» =
          if addDays (startOfDay v) 1 ≤ startOfDay e.start
          then addDays (startOfDay e.start) 1
          else addDays (startOfDay v) 1)
    ∧ (normalizeEvent e).start < (normalizeEvent e).«end» := by
  have hsodtod : ∀ s : Int, timeOfDay (startOfDay s) = 0 := timeOfDay_startOfDay
  have htod1 : ∀ s : Int, timeOfDay (addDays (startOfDay s) 1) = 0 := by
    intro s
    rw [timeOfDay_addDays]
    exact hsodtod s
  refine ⟨rfl, ?_, ?_, ?_⟩
  · intro he
    simp only [normalizeEvent, he]
    rw [hasTime_false_of _ (htod1 e.start)]
    simp only [Bool.false_eq_true, if_false]
    rw [startOfDay_of_timeOfDay_eq_zero _ (htod1 e.start)]
    rw [if_neg (by rw [addDays_eq]; simp only [dayMs]; omega)]
  · intro v hv hvt
    simp only [normalizeEvent, hv]
    rw [hasTime_true_of _ hvt]
    simp only [if_true]
  · rcases he : e.«end» with _ | v
    · simp only [normalizeEvent, he]
      rw [hasTime_false_of _ (htod1 e.start)]
      simp only [Bool.false_eq_true, if_false]
      rw [startOfDay_of_timeOfDay_eq_zero _ (htod1 e.start)]
      rw [if_neg (by rw [addDays_eq]; simp only [dayMs]; omega)]
      rw [addDays_eq]
      simp only [dayMs]
      omega
    · simp only [normalizeEvent, he]
      by_cases hvt : timeOfDay v = 0
      · rw [hasTime_false_of _ hvt]
        simp only [Bool.false_eq_true, if_false]
        split
        · rw [addDays_eq]
          simp only [dayMs]
          omega
        · rename_i hgt
          omega
      · rw [hasTime_true_of _ hvt]
        simp only [if_true]
        split
        · rw [addDays_eq]
          simp only [dayMs]
          omega
        · rename_i hgt
          omega

/-- C1 witness: concrete instances — an event with no `end` gets `start + 1
day`, and an event ending 2024-01-10T14:00 is rounded up to 2024-01-11. -/
theorem normalizeEvent_canonical_witness :
    (normalizeEvent ⟨some "e1", "t", mkDate 2024 0 10, none, some "r1", none⟩).«end»
        = addDays (startOfDay (mkDate 2024 0 10)) 1
    ∧ (normalizeEvent ⟨some "e1", "t", mkDate 2024 0 10,
          some (mkDate 2024 0 10 + 14 * 3600000), some "r1", none⟩).«end»
        = if addDays (startOfDay (mkDate 2024 0 10 + 14 * 3600000)) 1
              ≤ startOfDay (mkDate 2024 0 10)
          then addDays (startOfDay (mkDate 2024 0 10)) 1
          else addDays (startOfDay (mkDate 2024 0 10 + 14 * 3600000)) 1 :=
  ⟨(normalizeEvent_canonical _).2.1 rfl,
   (normalizeEvent_canonical _).2.2.1 _ rfl (by decide)⟩

/-- C3 (amended): the projection emits one descriptor exactly for each event
with a truthy (present and nonempty) `resourceId` occurring in the resource
list that intersects the section as an open interval
(`sec.start < ev.end ∧ ev.start < sec.end`); boundary-touching events and
events with absent or unmatched resource ids yield nothing. -/
theorem renderEventsForSection_kept_iff (sec : ViewSection) (resources : List CalendarResource)
    (events : List NormalizedEvent) :
    (renderEventsForSection sec resources events).map (fun p => p.ev)
      = events.filter (fun ev =>
          (truthy ev.resourceId
            && (decide (sec.start < ev.«end») && decide (ev.start < sec.«end»)))
            && resources.any (fun r => some r.id == ev.resourceId)) := by
  unfold renderEventsForSection
  refine (filter_map_filter_map events _ _ _ (fun p : PositionedEvent => p.ev)
    (fun a => rfl)).trans ?_
  refine List.filter_congr ?_
  intro ev _
  show ((truthy ev.resourceId && (decide (sec.start < ev.«end») && decide (ev.start < sec.«end»)))
      && decide (0 ≤ findIndexById resources ev.resourceId))
    = ((truthy ev.resourceId && (decide (sec.start < ev.«end») && decide (ev.start < sec.«end»)))
      && resources.any (fun r => some r.id == ev.resourceId))
  rw [findIndexById_nonneg]

/-- C3 counterexample: for the one-day section of 2024-01-10, the resource
list `[⟨"", "R"⟩]` and the normalized event of `emptyIdRaw` — whose
`resourceId` is `some ""`, which does occur in the resource list, and which
intersects the section — the projection emits no descriptor, because the
code's truthiness test `!ev.resourceId` also drops an empty-string resource
id.  This refutes the claim as stated. -/
theorem renderEventsForSection_empty_id_counterexample :
    (normalizeEvent emptyIdRaw).resourceId = some ""
    ∧ emptyIdResources.any (fun r => some r.id == (normalizeEvent emptyIdRaw).resourceId) = true
    ∧ sampleDaySection.start < (normalizeEvent emptyIdRaw).«end»
    ∧ (normalizeEvent emptyIdRaw).start < sampleDaySection.«end»
    ∧ renderEventsForSection sampleDaySection emptyIdResources [normalizeEvent emptyIdRaw]
        = [] := by
  decide

/-- C4: every descriptor the projection emits carries the clipped-span
coordinates: `startColumn = diffDays (max ev.start sec.start) sec.start` and
`endColumn = max (startColumn + 1) (diffDays (min ev.end sec.end) sec.start)`,
guaranteeing a minimum one-column width. -/
theorem renderEventsForSection_coords (sec : ViewSection) (resources : List CalendarResource)
    (events : List NormalizedEvent) (p : PositionedEvent)
    (hp : p ∈ renderEventsForSection sec resources events) :
    p.startIndex = diffDays (max p.ev.start sec.start) sec.start
    ∧ p.endIndex = max (p.startIndex + 1) (diffDays (min p.ev.«end» sec.«end») sec.start) := by
  unfold renderEventsForSection at hp
  rw [List.mem_filter] at hp
  obtain ⟨hp1, _⟩ := hp
  rw [List.mem_map] at hp1
  obtain ⟨ev, _, rfl⟩ := hp1
  constructor
  · show diffDays (if ev.start < sec.start then sec.start else ev.start) sec.start
      = diffDays (max ev.start sec.start) sec.start
    congr 1
    split <;> omega
  · show max (diffDays (if ev.start < sec.start then sec.start else ev.start) sec.start + 1)
        (diffDays (if sec.«end» < ev.«end» then sec.«end» else ev.«end») sec.start)
      = max (diffDays (if ev.start < sec.start then sec.start else ev.start) sec.start + 1)
        (diffDays (min ev.«end» sec.«end») sec.start)
    congr 1
    congr 1
    split <;> omega

/-- C4 witness: the 5-day event [2024-01-08, 2024-01-13) clipped to the 1-day
section of 2024-01-10 yields the descriptor with `startIndex 0`, `endIndex 1`
(one column of width 1), matching the clipped-span formulas. -/
theorem renderEventsForSection_coords_witness :
    sampleP.startIndex
        = diffDays (max sampleP.ev.start sampleDaySection.start) sampleDaySection.start
    ∧ sampleP.endIndex = max (sampleP.startIndex + 1)
        (diffDays (min sampleP.ev.«end» sampleDaySection.«end») sampleDaySection.start) :=
  renderEventsForSection_coords sampleDaySection sampleResources [sampleEv] sampleP (by decide)

/-- C2 (amended): on pointer-up with the active pointer identity, if the
target row resolves to no resource — or to a resource whose id is the empty
string, which the code's truthiness guard `if (!nextResourceId)` treats the
same way — the gesture is discarded with no reschedule intent and the state
returns to Idle; otherwise exactly one intent is emitted, equal to the
original raw fields with the canonical `start`/`end` shifted by `deltaDays`
via `addDays` and `resourceId` set to the target resource's id, and the state
returns to Idle. -/
theorem onEventPointerUp_spec (d : DragState) (resources : List CalendarResource)
    (pointerId : Int) (hp : pointerId = d.pointerId) :
    ((resourceAt resources d.targetResourceIndex = none
        ∨ ∃ r, resourceAt resources d.targetResourceIndex = some r ∧ r.id = "") →
      onEventPointerUp (some d) pointerId resources = (none, none))
    ∧ (∀ r, resourceAt resources d.targetResourceIndex = some r → r.id ≠ "" →
        onEventPointerUp (some d) pointerId resources
          = (none, some { d.origin.raw with
              id := d.origin.id
              start := addDays d.origin.start d.deltaDays
              «end» := some (addDays d.origin.«end» d.deltaDays)
              resourceId := some r.id })) := by
  subst hp
  constructor
  · rintro (h | ⟨r, hr, hid⟩)
    · simp [onEventPointerUp, h]
    · simp [onEventPointerUp, hr, hid]
  · intro r hr hid
    simp [onEventPointerUp, hr, hid]

/-- C2 witness: releasing `sampleDrag` (pointer 7, `deltaDays` 3, target row
2 of the three known resources) emits exactly one reschedule intent with both
canonical dates shifted by 3 days and `resourceId` `"r3"`, and idles the
state. -/
theorem onEventPointerUp_spec_witness :
    onEventPointerUp (some sampleDrag) sampleDrag.pointerId sampleResources
      = (none, some { sampleDrag.origin.raw with
          id := sampleDrag.origin.id
          start := addDays sampleDrag.origin.start sampleDrag.deltaDays
          «end» := some (addDays sampleDrag.origin.«end» sampleDrag.deltaDays)
          resourceId := some (CalendarResource.mk "r3" "C").id }) :=
  (onEventPointerUp_spec sampleDrag sampleResources _ rfl).2 ⟨"r3", "C"⟩ (by decide) (by decide)

/-- C2 counterexample: releasing the drag over row 0 of `emptyIdResources` — a
row that does map to a resource, whose id is the empty string — emits no
reschedule intent and discards the gesture, refuting the claim's "otherwise
exactly one reschedule intent is emitted" branch as stated. -/
theorem onEventPointerUp_empty_id_counterexample :
    resourceAt emptyIdResources emptyDrag.targetResourceIndex = some ⟨"", "R"⟩
    ∧ onEventPointerUp (some emptyDrag) emptyDrag.pointerId emptyIdResources = (none, none) := by
  decide

/-- C6 (amended): `onEventPointerDown` never consults the existing drag slot —
any pointer-down on an event carrying a truthy id while the grid is mounted
installs a fresh gesture for the new pointer, so a second pointer-down during
an active drag replaces the existing DragState rather than being ignored;
only pointer-downs on events without a truthy id leave the slot unchanged. -/
theorem onEventPointerDown_spec (drag : Option DragState) (rectTop pid cx cy : Int)
    (ev : NormalizedEvent) (resources : List CalendarResource) (rowHeight : Int)
    (hid : truthy ev.id = true) :
    onEventPointerDown drag true rectTop pid cx cy ev resources rowHeight
      = some { pointerId := pid, eventId := ev.id.getD "", origin := ev, startX := cx,
               startY := cy, deltaDays := 0,
               targetResourceIndex := clamp ((cy - rectTop) / rowHeight) 0
                 (max 0 ((resources.length : Int) - 1)) }
    ∧ ∀ (drag2 : Option DragState) (ev2 : NormalizedEvent), truthy ev2.id = false →
        onEventPointerDown drag2 true rectTop pid cx cy ev2 resources rowHeight = drag2 := by
  constructor
  · simp [onEventPointerDown, hid]
  · intro drag2 ev2 h2
    simp [onEventPointerDown, h2]

/-- C6 witness: with `sampleDrag` (pointer 7) active, a pointer-down by
pointer 9 on the id-carrying `sampleEv` replaces the slot with a fresh gesture
for pointer 9. -/
theorem onEventPointerDown_spec_witness :
    onEventPointerDown (some sampleDrag) true 0 9 500 85 sampleEv sampleResources 40
      = some { pointerId := 9, eventId := sampleEv.id.getD "", origin := sampleEv, startX := 500,
               startY := 85, deltaDays := 0,
               targetResourceIndex := clamp ((85 - 0) / 40) 0
                 (max 0 ((sampleResources.length : Int) - 1)) } :=
  (onEventPointerDown_spec (some sampleDrag) 0 9 500 85 sampleEv sampleResources 40 (by decide)).1

/-- C6 counterexample: while `sampleDrag` (pointer 7) is active, a second
pointer-down by pointer 9 on an event carrying an id replaces the DragState —
the stored pointer identity becomes 9 — refuting "the existing DragState is
never replaced or altered by any pointer-down event". -/
theorem onEventPointerDown_replace_counterexample :
    sampleDrag.pointerId = 7
    ∧ (onEventPointerDown (some sampleDrag) true 0 9 500 85 sampleEv sampleResources 40).map
        (fun d => d.pointerId) = some 9 := by
  decide

/-- C7: the week view is a single section of exactly 7 contiguous days whose
first day is obtained from `activeDate`'s midnight by subtracting the
`(weekday + 6) % 7` offset computed from the native 0 = Sunday weekday — a
Monday (weekday 1) — and whose 7-day range contains `activeDate`'s day.  The
computation involves no locale input. -/
theorem week_section_monday (t : Int) :
    (sectionsFor t CalendarView.week).length = 1
    ∧ ((getViewModel t CalendarView.week).«section»).days.length = 7
    ∧ ((getViewModel t CalendarView.week).«section»).days.getD 0 0
        = addDays (startOfDay t) (-((getDay (startOfDay t) + 6) % 7))
    ∧ getDay (((getViewModel t CalendarView.week).«section»).days.getD 0 0) = 1
    ∧ contiguousDays ((getViewModel t CalendarView.week).«section»).days
    ∧ ((getViewModel t CalendarView.week).«section»).days.getD 0 0 ≤ startOfDay t
    ∧ startOfDay t
        < addDays (((getViewModel t CalendarView.week).«section»).days.getD 0 0) 7 := by
  have hdays : ((getViewModel t CalendarView.week).«section»).days = weekDays t := rfl
  have hget0 : ((getViewModel t CalendarView.week).«section»).days.getD 0 0
      = addDays (startOfDay t) (-((getDay (startOfDay t) + 6) % 7)) := by
    rw [hdays, weekDays_getD t 0 (by omega)]
    norm_num
    exact addDays_zero_day _
  refine ⟨rfl, by rw [hdays, weekDays_length], hget0, ?_, ?_, ?_, ?_⟩
  · rw [hget0]
    show (toDay (addDays (startOfDay t) (-((getDay (startOfDay t) + 6) % 7))) + 6) % 7 = 1
    rw [toDay_addDays]
    show (toDay (startOfDay t) + -(((toDay (startOfDay t) + 6) % 7 + 6) % 7) + 6) % 7 = 1
    omega
  · rw [hdays]
    exact weekDays_contiguous t
  · rw [hget0, addDays_eq]
    simp only [dayMs]
    omega
  · rw [hget0, addDays_addDays, addDays_eq]
    simp only [dayMs]
    omega

/-- C7 witness: for activeDate 2024-01-10 (a Wednesday), the week section's
first day is the Monday 2024-01-08, its weekday is 1, and day 3 follows day 2
by one day. -/
theorem week_section_monday_witness :
    getDay (((getViewModel (mkDate 2024 0 10) CalendarView.week).«section»).days.getD 0 0) = 1
    ∧ ((getViewModel (mkDate 2024 0 10) CalendarView.week).«section»).days.getD 3 0
        = addDays
            (((getViewModel (mkDate 2024 0 10) CalendarView.week).«section»).days.getD 2 0) 1 :=
  ⟨(week_section_monday (mkDate 2024 0 10)).2.2.2.1,
   (week_section_monday (mkDate 2024 0 10)).2.2.2.2.1 2 (by decide)⟩

/-- C9: the year view yields exactly twelve sections, one per month of
`activeDate`'s year in chronological order, each equal — in `start`, `end` and
`days` — to the section the month partition produces when anchored at the
first day of that month (`new Date(y, i, 1)`). -/
theorem getYearSections_eq_month (t : Int) :
    (getYearSections t).length = 12
    ∧ getYearSections t
        = (List.range 12).map
            (fun (i : Nat) =>
              (getViewModel (mkDate (getFullYear t) (i : Int) 1) CalendarView.month).«section»)
    ∧ (∀ i : Nat, i < 12 →
        ((getYearSections t).getD i ⟨0, 0, []⟩).start = mkDate (getFullYear t) (i : Int) 1) := by
  refine ⟨by simp [getYearSections], rfl, ?_⟩
  intro i hi
  have hanchor := mkDate_components (getFullYear t) i 1 hi (by omega)
    (by have := daysInMonth_ge (isLeap (getFullYear t)) i hi; omega)
  simp only [Nat.cast_one] at hanchor
  have hgi : (getYearSections t).getD i ⟨0, 0, []⟩
      = (let anchor := mkDate (getFullYear t) (i : Int) 1
         let days := monthDays anchor
         (⟨startOfDay (days.getD 0 0),
           addDays (startOfDay (days.getD (days.length - 1) 0)) 1, days⟩ : ViewSection)) := by
    simp only [getYearSections]
    exact getD_range_map _ _ 12 i hi
  rw [hgi]
  show startOfDay ((monthDays (mkDate (getFullYear t) (i : Int) 1)).getD 0 0)
      = mkDate (getFullYear t) (i : Int) 1
  rw [monthDays_getD _ 0 (by
    rw [hanchor.1, hanchor.2.1]
    have := daysInMonth_ge (isLeap (getFullYear t)) i hi
    omega)]
  rw [hanchor.1, hanchor.2.1]
  rw [startOfDay_of_timeOfDay_eq_zero _ (timeOfDay_mkDate _ _ _)]
  norm_num

/-- C9 witness: in the year view of 2024, section 3 (April) starts at
2024-04-01, the first day of its month. -/
theorem getYearSections_eq_month_witness :
    ((getYearSections (mkDate 2024 0 10)).getD 3 ⟨0, 0, []⟩).start
      = mkDate (getFullYear (mkDate 2024 0 10)) ((3 : Nat) : Int) 1 :=
  (getYearSections_eq_month (mkDate 2024 0 10)).2.2 3 (by decide)

/-- C5: for every active date and view granularity, every section produced by
the partitioner has a nonempty, contiguous ascending days sequence
(`days[i+1] = days[i] + 1 day`, no gaps), and `section.end` equals the start
of the last day plus one day. -/
theorem sectionsFor_contiguous (t : Int) (view : CalendarView) (s : ViewSection)
    (hs : s ∈ sectionsFor t view) :
    s.days ≠ []
    ∧ contiguousDays s.days
    ∧ s.«end» = addDays (startOfDay (s.days.getD (s.days.length - 1) 0)) 1 := by
  cases view with
  | day =>
    have he : s = ⟨startOfDay t, addDays (startOfDay t) 1, [startOfDay t]⟩ := by
      have h0 : sectionsFor t CalendarView.day
          = [⟨startOfDay t, addDays (startOfDay t) 1, [startOfDay t]⟩] := rfl
      rw [h0, List.mem_singleton] at hs
      exact hs
    subst he
    refine ⟨by simp, ?_, ?_⟩
    · intro i hi
      simp only [List.length_singleton] at hi
      omega
    · show addDays (startOfDay t) 1 = addDays (startOfDay (startOfDay t)) 1
      rw [startOfDay_of_timeOfDay_eq_zero _ (timeOfDay_startOfDay t)]
  | week =>
    have he : s = (getViewModel t CalendarView.week).«section» := by
      have h0 : sectionsFor t CalendarView.week
          = [(getViewModel t CalendarView.week).«section»] := rfl
      rw [h0, List.mem_singleton] at hs
      exact hs
    subst he
    have hdays : ((getViewModel t CalendarView.week).«section»).days = weekDays t := rfl
    refine ⟨?_, ?_, ?_⟩
    · rw [hdays]
      intro hnil
      have := weekDays_length t
      rw [hnil] at this
      simp at this
    · rw [hdays]
      exact weekDays_contiguous t
    · show addDays ((weekDays t).getD 0 0) 7
        = addDays (startOfDay ((weekDays t).getD ((weekDays t).length - 1) 0)) 1
      rw [weekDays_length, show (7 : Nat) - 1 = 6 from rfl]
      rw [weekDays_getD t 0 (by omega), weekDays_getD t 6 (by omega)]
      have h6 : timeOfDay (addDays (addDays (startOfDay t)
          (-((getDay (startOfDay t) + 6) % 7))) ((6 : Nat) : Int)) = 0 := by
        rw [timeOfDay_addDays, timeOfDay_addDays]
        exact timeOfDay_startOfDay t
      rw [startOfDay_of_timeOfDay_eq_zero _ h6]
      simp only [addDays_addDays]
      congr 1
      omega
  | month =>
    have he : s = (getViewModel t CalendarView.month).«section» := by
      have h0 : sectionsFor t CalendarView.month
          = [(getViewModel t CalendarView.month).«section»] := rfl
      rw [h0, List.mem_singleton] at hs
      exact hs
    subst he
    exact ⟨monthDays_ne_nil t, monthDays_contiguous t, rfl⟩
  | year =>
    have h0 : sectionsFor t CalendarView.year = getYearSections t := rfl
    rw [h0] at hs
    simp only [getYearSections, List.mem_map, List.mem_range] at hs
    obtain ⟨i, _, he⟩ := hs
    subst he
    exact ⟨monthDays_ne_nil _, monthDays_contiguous _, rfl⟩

/-- C5 witness: the single month section of January 2024 has nonempty
contiguous days and `end = start of last day + 1 day`. -/
theorem sectionsFor_contiguous_witness :
    ((getViewModel (mkDate 2024 0 10) CalendarView.month).«section»).days ≠ []
    ∧ contiguousDays ((getViewModel (mkDate 2024 0 10) CalendarView.month).«section»).days
    ∧ ((getViewModel (mkDate 2024 0 10) CalendarView.month).«section»).«end»
        = addDays (startOfDay
            (((getViewModel (mkDate 2024 0 10) CalendarView.month).«section»).days.getD
              (((getViewModel (mkDate 2024 0 10) CalendarView.month).«section»).days.length - 1)
              0)) 1 :=
  sectionsFor_contiguous (mkDate 2024 0 10) CalendarView.month _ (by
    rw [show sectionsFor (mkDate 2024 0 10) CalendarView.month
        = [(getViewModel (mkDate 2024 0 10) CalendarView.month).«section»] from rfl]
    exact List.mem_singleton.mpr rfl)

/-- C10: every positioned descriptor emitted by the projection for a
well-formed section (nonempty day list, midnight-aligned start, and
`end = start + days.length · 1 day`, as the partitioner guarantees) lies
inside the grid: `0 ≤ startColumn < endColumn ≤ days.length` and
`0 ≤ rowIndex < resources.length`. -/
theorem renderEventsForSection_inside (sec : ViewSection) (resources : List CalendarResource)
    (events : List NormalizedEvent) (L : Nat) (hL : 1 ≤ L) (hlen : sec.days.length = L)
    (hend : sec.«end» = addDays sec.start (L : Int)) (hmid : timeOfDay sec.start = 0)
    (p : PositionedEvent) (hp : p ∈ renderEventsForSection sec resources events) :
    0 ≤ p.startIndex ∧ p.startIndex < p.endIndex ∧ p.endIndex ≤ (sec.days.length : Int)
    ∧ 0 ≤ p.resourceIndex ∧ p.resourceIndex < (resources.length : Int) := by
  unfold renderEventsForSection at hp
  rw [List.mem_filter] at hp
  obtain ⟨hp1, hp2⟩ := hp
  rw [List.mem_map] at hp1
  obtain ⟨ev, hev, rfl⟩ := hp1
  rw [List.mem_filter] at hev
  obtain ⟨_, hcond⟩ := hev
  simp only [Bool.and_eq_true, decide_eq_true_eq] at hcond
  obtain ⟨htruthy, hlt1, hlt2⟩ := hcond
  have hridx : 0 ≤ findIndexById resources ev.resourceId := by
    simpa using hp2
  rw [addDays_eq] at hend
  simp only [timeOfDay, dayMs] at hmid
  have hge : (28 : Int) ≤ 28 := le_refl _
  refine ⟨?_, ?_, ?_, hridx, findIndexById_lt_length resources ev.resourceId hridx⟩
  · show 0 ≤ diffDays (if ev.start < sec.start then sec.start else ev.start) sec.start
    rw [diffDays_eq]
    simp only [toDay, dayMs]
    split <;> omega
  · show diffDays (if ev.start < sec.start then sec.start else ev.start) sec.start
      < max (diffDays (if ev.start < sec.start then sec.start else ev.start) sec.start + 1)
          (diffDays (if sec.«end» < ev.«end» then sec.«end» else ev.«end») sec.start)
    omega
  · show max (diffDays (if ev.start < sec.start then sec.start else ev.start) sec.start + 1)
        (diffDays (if sec.«end» < ev.«end» then sec.«end» else ev.«end») sec.start)
      ≤ (sec.days.length : Int)
    rw [hlen]
    simp only [diffDays_eq, toDay, dayMs]
    simp only [dayMs] at hend
    split <;> split <;> omega

/-- C10 witness: the descriptor of the 5-day event clipped to the 1-day
section of 2024-01-10 lies inside the one-column, three-row grid. -/
theorem renderEventsForSection_inside_witness :
    0 ≤ sampleP.startIndex ∧ sampleP.startIndex < sampleP.endIndex
    ∧ sampleP.endIndex ≤ (sampleDaySection.days.length : Int)
    ∧ 0 ≤ sampleP.resourceIndex ∧ sampleP.resourceIndex < (sampleResources.length : Int) :=
  renderEventsForSection_inside sampleDaySection sampleResources [sampleEv] 1 (by decide)
    (by decide) (by decide) (by decide) sampleP (by decide)

/-- C8: `goNext`/`goPrev` round-trip — applying the one-unit `addByView` step
forward `k` times and then backward `k` times (and symmetrically) returns
`activeDate` exactly, for `day` and `week` unconditionally, and for `month`
and `year` whenever the day-of-month is at most 28, the scope in which
month-length differences cannot disturb the day-of-month (the documented
month-end edge case, e.g. Jan 31 + 1 month − 1 month, is excluded by the
hypothesis). -/
theorem addByView_roundtrip (view : CalendarView) (t : Int) (k : Nat)
    (hd : view = CalendarView.month ∨ view = CalendarView.year → getDate t ≤ 28) :
    (fun d => addByView d view (-1))^[k] ((fun d => addByView d view 1)^[k] t) = t
    ∧ (fun d => addByView d view 1)^[k] ((fun d => addByView d view (-1))^[k] t) = t := by
  cases view with
  | day =>
    have hf : (fun d => addByView d CalendarView.day 1) = fun d => d + 1 * dayMs := by
      funext d
      exact addDays_eq d 1
    have hb : (fun d => addByView d CalendarView.day (-1)) = fun d => d + (-1) * dayMs := by
      funext d
      exact addDays_eq d (-1)
    rw [hf, hb]
    rw [iterate_add_const, iterate_add_const, iterate_add_const, iterate_add_const]
    constructor <;> ring
  | week =>
    have hf : (fun d => addByView d CalendarView.week 1) = fun d => d + 1 * 7 * dayMs := by
      funext d
      rw [show addByView d CalendarView.week 1 = addDays d (1 * 7) from rfl, addDays_eq]
    have hb : (fun d => addByView d CalendarView.week (-1)) = fun d => d + (-1) * 7 * dayMs := by
      funext d
      rw [show addByView d CalendarView.week (-1) = addDays d ((-1) * 7) from rfl, addDays_eq]
    rw [hf, hb]
    rw [iterate_add_const, iterate_add_const, iterate_add_const, iterate_add_const]
    constructor <;> ring
  | month =>
    have hd28 := hd (Or.inl rfl)
    have hf : (fun d => addByView d CalendarView.month 1) = fun d => addMonths d 1 := rfl
    have hb : (fun d => addByView d CalendarView.month (-1)) = fun d => addMonths d (-1) := rfl
    rw [hf, hb]
    have hfor := iterate_addMonths k t hd28 1
    have hbac := iterate_addMonths k t hd28 (-1)
    have hdf : getDate (addMonths t ((k : Int) * 1)) ≤ 28 := by
      rw [(addMonths_components t ((k : Int) * 1) hd28).2.2.1]
      exact hd28
    have hdb : getDate (addMonths t ((k : Int) * (-1))) ≤ 28 := by
      rw [(addMonths_components t ((k : Int) * (-1)) hd28).2.2.1]
      exact hd28
    constructor
    · rw [hfor, iterate_addMonths k _ hdf (-1), addMonths_addMonths t _ _ hd28]
      have e : (k : Int) * 1 + (k : Int) * (-1) = 0 := by ring
      rw [e, addMonths_zero]
    · rw [hbac, iterate_addMonths k _ hdb 1, addMonths_addMonths t _ _ hd28]
      have e : (k : Int) * (-1) + (k : Int) * 1 = 0 := by ring
      rw [e, addMonths_zero]
  | year =>
    have hd28 := hd (Or.inr rfl)
    have hf : (fun d => addByView d CalendarView.year 1) = fun d => addYears d 1 := rfl
    have hb : (fun d => addByView d CalendarView.year (-1)) = fun d => addYears d (-1) := rfl
    rw [hf, hb]
    have hdf : getDate (addYears t ((k : Int) * 1)) ≤ 28 := by
      rw [show addYears t ((k : Int) * 1)
          = setFullYear t (getFullYear t + (k : Int) * 1) from rfl]
      rw [(setFullYear_components t (getFullYear t + (k : Int) * 1) hd28).2.2.1]
      exact hd28
    have hdb : getDate (addYears t ((k : Int) * (-1))) ≤ 28 := by
      rw [show addYears t ((k : Int) * (-1))
          = setFullYear t (getFullYear t + (k : Int) * (-1)) from rfl]
      rw [(setFullYear_components t (getFullYear t + (k : Int) * (-1)) hd28).2.2.1]
      exact hd28
    constructor
    · rw [iterate_addYears k t hd28 1, iterate_addYears k _ hdf (-1),
        addYears_addYears t _ _ hd28]
      have e : (k : Int) * 1 + (k : Int) * (-1) = 0 := by ring
      rw [e, addYears_zero]
    · rw [iterate_addYears k t hd28 (-1), iterate_addYears k _ hdb 1,
        addYears_addYears t _ _ hd28]
      have e : (k : Int) * (-1) + (k : Int) * 1 = 0 := by ring
      rw [e, addYears_zero]

/-- C8 witness: two month steps forward then two backward from 2024-01-15
(day-of-month 15 ≤ 28) return exactly to 2024-01-15. -/
theorem addByView_roundtrip_witness :
    (fun d => addByView d CalendarView.month (-1))^[2]
      ((fun d => addByView d CalendarView.month 1)^[2] (mkDate 2024 0 15)) = mkDate 2024 0 15 :=
  (addByView_roundtrip CalendarView.month (mkDate 2024 0 15) 2 (fun _ => by decide)).1

example : daysToYear 1970 = 719528 := by decide

example : getDay (mkDate 1970 0 1) = 4 := by decide

example : civilFromDays (daysFromCivil 2024 1 29) = (2024, 1, 29) := by decide

example : civilFromDays (daysFromCivil 2023 1 29) = (2023, 2, 1) := by decide

example : civilFromDays (daysFromCivil 2024 12 1) = (2025, 0, 1) := by decide

example : getDate (mkDate 2024 2 0) = 29 := by decide

end Cal
